import Mathlib

/-!
Verification development for the systemd-wake crate.

The Rust sources are shallowly embedded as Lean functions:
  * text (Rust `str` / `String`) is modelled as `List Char`;
  * bytes (Rust `Vec<u8>` / `OsString` payloads) are modelled as `List Nat`
    (with an explicit `< 256` well-formedness condition where it matters);
  * fallible operations return `Option` / `Except`; a `.unwrap()` panic is
    modelled as `Option.none`;
  * subprocess execution is modelled by an explicit executor function
    `ExtCall → Option Output` passed as a parameter.

Library functions used by the crate (the `hex` crate, `serde_json`, UTF-8
validation from `String::from_utf8`, chrono formatting/parsing) are modelled
directly, following their documented behaviour on the fragments the crate
exercises; each model carries a comment naming the function it embeds.
-/

/-! ## Basic text utilities -/

/-- Model of Rust `char::is_whitespace` (the Unicode `White_Space` property). -/
def rustCharIsWhitespace (c : Char) : Bool :=
  [0x09, 0x0A, 0x0B, 0x0C, 0x0D, 0x20, 0x85, 0xA0, 0x1680,
   0x2000, 0x2001, 0x2002, 0x2003, 0x2004, 0x2005, 0x2006, 0x2007,
   0x2008, 0x2009, 0x200A, 0x2028, 0x2029, 0x202F, 0x205F, 0x3000].contains c.toNat

/-- Model of Rust `char::is_ascii` / `str::is_ascii` at the char level
(a UTF-8 string has all bytes in the ASCII range iff all its chars do). -/
def charIsAscii (c : Char) : Bool := c.toNat < 128

/-- Model of Rust `str::strip_prefix` restricted to string patterns:
returns the remainder when `pat` is a prefix of `s`. -/
def stripLead : List Char → List Char → Option (List Char)
  | [], s => some s
  | _ :: _, [] => none
  | p :: ps, c :: cs => if p = c then stripLead ps cs else none

/-- Model of Rust `str::split_once` with a string pattern: splits around the
first occurrence of `pat`. -/
def splitOnce (pat : List Char) : List Char → Option (List Char × List Char)
  | [] =>
    match stripLead pat [] with
    | some r => some ([], r)
    | none => none
  | c :: cs =>
    match stripLead pat (c :: cs) with
    | some r => some ([], r)
    | none =>
      match splitOnce pat cs with
      | some (pre, post) => some (c :: pre, post)
      | none => none

/-- Model of Rust `str::trim_end`: removes trailing `char::is_whitespace` chars. -/
def trimEnd (s : List Char) : List Char :=
  (s.reverse.dropWhile rustCharIsWhitespace).reverse

/-! ## Hexadecimal codec (model of the `hex` crate)

`hex::encode` produces two lowercase hex digits per byte; `hex::decode`
accepts upper- and lowercase digits and fails on any non-hex character or an
odd-length input.  The crate distinguishes error variants; the embedding only
needs the failure itself, so decoding returns `Option`. -/

/-- Lowercase hexadecimal digit for a value below 16. -/
def hexDigitChar (n : Nat) : Char :=
  if n < 10 then Char.ofNat (48 + n) else Char.ofNat (87 + n)

/-- Model of how `hex::encode` renders one byte. -/
def hexEncodeByte (b : Nat) : List Char := [hexDigitChar (b / 16), hexDigitChar (b % 16)]

/-- Model of `hex::encode`. -/
def hexEncode (bs : List Nat) : List Char := bs.flatMap hexEncodeByte

/-- Value of a hexadecimal digit character, as accepted by `hex::decode`. -/
def hexVal (c : Char) : Option Nat :=
  if '0' ≤ c ∧ c ≤ '9' then some (c.toNat - 48)
  else if 'a' ≤ c ∧ c ≤ 'f' then some (c.toNat - 87)
  else if 'A' ≤ c ∧ c ≤ 'F' then some (c.toNat - 55)
  else none

/-- Model of `hex::decode` (failure collapses the crate error variants). -/
def hexDecode : List Char → Option (List Nat)
  | [] => some []
  | [_] => none
  | c1 :: c2 :: rest =>
    match hexVal c1, hexVal c2, hexDecode rest with
    | some h, some l, some bs => some ((h * 16 + l) :: bs)
    | _, _, _ => none

/-! ## UTF-8 (model of `String::from_utf8` and of `str::as_bytes`)

Encoding turns each Unicode scalar value into 1-4 bytes; decoding validates
exactly as Rust does (rejecting overlong forms, surrogates, values above
`0x10FFFF`, truncated sequences and stray continuation bytes). -/

/-- UTF-8 encoding of a single Unicode scalar value. -/
def utf8EncodeNat (n : Nat) : List Nat :=
  if n < 0x80 then [n]
  else if n < 0x800 then [0xC0 + n / 64, 0x80 + n % 64]
  else if n < 0x10000 then [0xE0 + n / 4096, 0x80 + n / 64 % 64, 0x80 + n % 64]
  else [0xF0 + n / 262144, 0x80 + n / 4096 % 64, 0x80 + n / 64 % 64, 0x80 + n % 64]

/-- Model of `str::as_bytes` (UTF-8 bytes of a string). -/
def utf8Encode (s : List Char) : List Nat := s.flatMap (fun c => utf8EncodeNat c.toNat)

/-- Decoding of one UTF-8 sequence, as validated by `String::from_utf8`. -/
def utf8DecodeOne : List Nat → Option (Nat × List Nat)
  | [] => none
  | b :: rest =>
    if b < 0x80 then some (b, rest)
    else if b < 0xC2 then none
    else if b < 0xE0 then
      match rest with
      | b1 :: rest1 =>
        if 0x80 ≤ b1 ∧ b1 < 0xC0 then some ((b - 0xC0) * 64 + (b1 - 0x80), rest1) else none
      | _ => none
    else if b < 0xF0 then
      match rest with
      | b1 :: b2 :: rest2 =>
        if (0x80 ≤ b1 ∧ b1 < 0xC0) ∧ (0x80 ≤ b2 ∧ b2 < 0xC0) then
          let v := (b - 0xE0) * 4096 + (b1 - 0x80) * 64 + (b2 - 0x80)
          if v < 0x800 ∨ (0xD800 ≤ v ∧ v < 0xE000) then none else some (v, rest2)
        else none
      | _ => none
    else if b < 0xF5 then
      match rest with
      | b1 :: b2 :: b3 :: rest3 =>
        if (0x80 ≤ b1 ∧ b1 < 0xC0) ∧ (0x80 ≤ b2 ∧ b2 < 0xC0) ∧ (0x80 ≤ b3 ∧ b3 < 0xC0) then
          let v := (b - 0xF0) * 262144 + (b1 - 0x80) * 4096 + (b2 - 0x80) * 64 + (b3 - 0x80)
          if v < 0x10000 ∨ 0x110000 ≤ v then none else some (v, rest3)
        else none
      | _ => none
    else none

/-- Fuelled decoding loop for `String::from_utf8`; one unit of fuel is spent
per decoded character, so fuel equal to the byte count always suffices. -/
def utf8DecodeAux : Nat → List Nat → Option (List Char)
  | _, [] => some []
  | 0, _ :: _ => none
  | fuel + 1, b :: rest =>
    match utf8DecodeOne (b :: rest) with
    | none => none
    | some (v, rest2) =>
      match utf8DecodeAux fuel rest2 with
      | none => none
      | some cs => some (Char.ofNat v :: cs)

/-- Model of `String::from_utf8`: `none` is the `FromUtf8Error` case. -/
def utf8Decode (l : List Nat) : Option (List Char) := utf8DecodeAux l.length l

/-! ## Decimal digits (model of integer rendering and of serde_json number
parsing for `u8` values) -/

/-- Decimal digit character for a value below 10. -/
def digitChar (n : Nat) : Char := Char.ofNat (48 + n)

/-- Little-endian decimal digits of `n` (fuelled; fuel `n` suffices). -/
def natDigitsLE : Nat → Nat → List Char
  | 0, _ => []
  | fuel + 1, n => if n = 0 then [] else digitChar (n % 10) :: natDigitsLE fuel (n / 10)

/-- Decimal rendering of a natural number, as serde_json prints integers. -/
def natToDigits (n : Nat) : List Char :=
  if n = 0 then ['0'] else (natDigitsLE n n).reverse

/-- Greedy run of decimal digit characters at the head of the input. -/
def takeDigits : List Char → List Char × List Char
  | [] => ([], [])
  | c :: cs =>
    if c.isDigit then
      let p := takeDigits cs
      (c :: p.1, p.2)
    else ([], c :: cs)

/-- Numeric value of a digit run (most significant digit first). -/
def digitsVal (l : List Char) : Nat := l.foldl (fun a c => a * 10 + (c.toNat - 48)) 0

/-- Greedy decimal number parse: at least one digit, as many as available. -/
def parseNat (s : List Char) : Option (Nat × List Char) :=
  match takeDigits s with
  | ([], _) => none
  | (ds, r) => some (digitsVal ds, r)

/-! ## JSON string escaping (model of serde_json string serialization and
parsing)

serde_json escapes `"`, `\` and control characters below 0x20 (with the
short forms `\b \t \n \f \r` and `\u00XX` otherwise); parsing additionally
accepts `\/` and general `\uXXXX` escapes including surrogate pairs, and
rejects raw control characters. -/

/-- Model of serde_json escaping for one character. -/
def escapeChar (c : Char) : List Char :=
  if c = '"' then ['\\', '"']
  else if c = '\\' then ['\\', '\\']
  else if c = '\x08' then ['\\', 'b']
  else if c = '\x09' then ['\\', 't']
  else if c = '\x0a' then ['\\', 'n']
  else if c = '\x0c' then ['\\', 'f']
  else if c = '\x0d' then ['\\', 'r']
  else if c.toNat < 0x20 then
    ['\\', 'u', '0', '0', hexDigitChar (c.toNat / 16), hexDigitChar (c.toNat % 16)]
  else [c]

/-- Model of serde_json escaping for a whole string (contents only). -/
def escapeString (s : List Char) : List Char := s.flatMap escapeChar

/-- Character denoted by a single-letter JSON escape. -/
def escCharOf (e : Char) : Option Char :=
  if e = '"' then some '"'
  else if e = '\\' then some '\\'
  else if e = '/' then some '/'
  else if e = 'b' then some '\x08'
  else if e = 'f' then some '\x0c'
  else if e = 'n' then some '\x0a'
  else if e = 'r' then some '\x0d'
  else if e = 't' then some '\x09'
  else none

/-- Decoding of one escape sequence, given the input just after a backslash:
either `u` plus four hex digits (with a following low-surrogate escape when
the first code unit is a high surrogate), or a single-letter escape. -/
def readEscape : List Char → Option (Char × List Char)
  | 'u' :: h1 :: h2 :: h3 :: h4 :: rest6 =>
    match hexVal h1, hexVal h2, hexVal h3, hexVal h4 with
    | some a, some b, some c3, some d =>
      let v := ((a * 16 + b) * 16 + c3) * 16 + d
      if 0xD800 ≤ v ∧ v ≤ 0xDBFF then
        match rest6 with
        | '\\' :: 'u' :: g1 :: g2 :: g3 :: g4 :: rest12 =>
          match hexVal g1, hexVal g2, hexVal g3, hexVal g4 with
          | some a2, some b2, some c2, some d2 =>
            let w := ((a2 * 16 + b2) * 16 + c2) * 16 + d2
            if 0xDC00 ≤ w ∧ w ≤ 0xDFFF then
              some (Char.ofNat (0x10000 + (v - 0xD800) * 0x400 + (w - 0xDC00)), rest12)
            else none
          | _, _, _, _ => none
        | _ => none
      else if 0xDC00 ≤ v ∧ v ≤ 0xDFFF then none
      else some (Char.ofNat v, rest6)
    | _, _, _, _ => none
  | e :: rest2 =>
    match escCharOf e with
    | some ch => some (ch, rest2)
    | none => none
  | [] => none

/-- Model of serde_json string-body parsing, applied after the opening quote;
returns the decoded contents and the input following the closing quote.
Fuelled: one unit of fuel is spent per decoded character, so fuel equal to
the input length always suffices. -/
def parseJsonStringAux : Nat → List Char → Option (List Char × List Char)
  | _, [] => none
  | 0, _ :: _ => none
  | fuel + 1, c :: rest =>
    if c = '"' then some ([], rest)
    else if c = '\\' then
      match readEscape rest with
      | some (ch, rest2) =>
        match parseJsonStringAux fuel rest2 with
        | some (cs, r) => some (ch :: cs, r)
        | none => none
      | none => none
    else if c.toNat < 0x20 then none
    else
      match parseJsonStringAux fuel rest with
      | some (cs, r) => some (c :: cs, r)
      | none => none

/-! ## CommandConfig (src/command.rs lines 12-18, duplicated at
src/lib.rs lines 109-115)

```rust
pub struct CommandConfig {
    program: OsString,
    dir: Option<PathBuf>,
    env_vars: Vec<(OsString,Option<OsString>)>,
    args: Vec<OsString>,
}
```

`OsString` values are byte strings on Unix, so they are modelled as `List Nat`
of bytes; `PathBuf` serializes through `Path::to_str`, so `dir` is modelled as
text. -/

/-- Model of `CommandConfig`. -/
structure CommandConfig where
  program : List Nat
  dir : Option (List Char)
  env_vars : List (List Nat × Option (List Nat))
  args : List (List Nat)
deriving DecidableEq

/-- Byte-string fields of a `CommandConfig` hold `u8` values.  This is implied
by the Rust types and is the well-formedness condition of the embedding. -/
def CommandConfig.wfb (c : CommandConfig) : Bool :=
  c.program.all (· < 256) &&
  c.env_vars.all (fun kv => kv.1.all (· < 256) && kv.2.all (fun v => v.all (· < 256))) &&
  c.args.all (fun a => a.all (· < 256))

/-! ### serde_json serialization of `CommandConfig`

`serde_json::to_string` with the derived `Serialize` implementation produces
compact JSON with the fields in declaration order.  serde serializes `OsString`
on Unix as the newtype variant map rendered as `"program":` an object with a
single `"Unix"` key holding the byte array, and `Path` as a JSON string (after
a UTF-8 validity check, which always succeeds in this embedding because the
model of paths is text). -/

/-- Literal `",\x7d"`-separated join of rendered list elements. -/
def sepJoin : List (List Char) → List Char
  | [] => []
  | [x] => x
  | x :: y :: xs => x ++ ',' :: sepJoin (y :: xs)

/-- Opening text of the serde `OsString` encoding. -/
def osOpen : List Char := "\x7b\"Unix\":[".toList

/-- JSON `null` literal. -/
def nullLit : List Char := "null".toList

/-- serde_json rendering of an `OsString` (Unix byte-array variant). -/
def jsonOsStr (bs : List Nat) : List Char :=
  osOpen ++ sepJoin (bs.map natToDigits) ++ ']' :: '\x7d' :: []

/-- serde_json rendering of one `env_vars` entry (a two-element tuple). -/
def jsonEnvPair (kv : List Nat × Option (List Nat)) : List Char :=
  '[' :: jsonOsStr kv.1 ++
    ',' :: (match kv.2 with | none => nullLit | some v => jsonOsStr v) ++ [']']

/-- serde_json rendering of the `dir` field (`Path` serializes as a string). -/
def jsonDir : Option (List Char) → List Char
  | none => nullLit
  | some d => '"' :: escapeString d ++ ['"']

/-- Field-name literals of the serialized struct, in declaration order. -/
def progKey : List Char := "\x7b\"program\":".toList

/-- Literal preceding the `dir` field. -/
def dirKey : List Char := ",\"dir\":".toList

/-- Literal preceding the `env_vars` field (includes the opening bracket). -/
def envKey : List Char := ",\"env_vars\":[".toList

/-- Literal preceding the `args` field (includes the opening bracket). -/
def argsKey : List Char := ",\"args\":[".toList

/-- Model of `serde_json::to_string(&config)` (src/command.rs line 65,
src/lib.rs line 162). -/
def jsonOfConfig (c : CommandConfig) : List Char :=
  progKey ++ jsonOsStr c.program ++
  dirKey ++ jsonDir c.dir ++
  envKey ++ sepJoin (c.env_vars.map jsonEnvPair) ++
  ']' :: argsKey ++ sepJoin (c.args.map jsonOsStr) ++ ']' :: '\x7d' :: []

/-! ### serde_json deserialization of `CommandConfig`

Model of `serde_json::from_str::<CommandConfig>`.  The model accepts the
canonical compact form produced by `serde_json::to_string` (serde_json itself
additionally tolerates insignificant whitespace and reordered fields, which no
claim depends on); all shape mismatches collapse to `none`, matching the
single `DeserializationError` classification in the crate. -/

/-- JSON whitespace accepted around a document. -/
def isJsonWs (c : Char) : Bool := c = ' ' || c = '\x09' || c = '\x0a' || c = '\x0d'

/-- Parse of one `u8` element: serde_json rejects values above 255. -/
def parseU8 (s : List Char) : Option (Nat × List Char) :=
  match parseNat s with
  | none => none
  | some (n, r) => if n ≤ 255 then some (n, r) else none

/-- Fuelled parse of a nonempty comma-separated element list; one unit of
fuel is spent per element, so fuel equal to the input length suffices. -/
def parseSepListAux {α : Type} (elem : List Char → Option (α × List Char)) :
    Nat → List Char → Option (List α × List Char)
  | 0, _ => none
  | fuel + 1, s =>
    match elem s with
    | none => none
    | some (a, r) =>
      match r with
      | ',' :: r2 =>
        match parseSepListAux elem fuel r2 with
        | none => none
        | some (as, r3) => some (a :: as, r3)
      | _ => some ([a], r)

/-- Parse of a possibly-empty element list given input positioned just after
the opening bracket; consumes the closing bracket. -/
def parseBracketList {α : Type} (elem : List Char → Option (α × List Char))
    (s : List Char) : Option (List α × List Char) :=
  if s.head? = some ']' then some ([], s.tail)
  else
    match parseSepListAux elem s.length s with
    | some (as, ']' :: r) => some (as, r)
    | _ => none

/-- Parse of the serde `OsString` encoding. -/
def parseOsStr (s : List Char) : Option (List Nat × List Char) :=
  match stripLead osOpen s with
  | none => none
  | some r =>
    match parseBracketList parseU8 r with
    | none => none
    | some (bs, r2) =>
      match stripLead ['\x7d'] r2 with
      | none => none
      | some r3 => some (bs, r3)

/-- Parse of one `env_vars` entry. -/
def parseEnvPair (s : List Char) : Option ((List Nat × Option (List Nat)) × List Char) :=
  match s with
  | '[' :: r =>
    match parseOsStr r with
    | none => none
    | some (k, r2) =>
      match r2 with
      | ',' :: r3 =>
        match stripLead nullLit r3 with
        | some r4 =>
          match r4 with
          | ']' :: r5 => some ((k, none), r5)
          | _ => none
        | none =>
          match parseOsStr r3 with
          | none => none
          | some (v, r4) =>
            match r4 with
            | ']' :: r5 => some ((k, some v), r5)
            | _ => none
      | _ => none
  | _ => none

/-- Parse of the `dir` field. -/
def parseDir (s : List Char) : Option (Option (List Char) × List Char) :=
  match stripLead nullLit s with
  | some r => some (none, r)
  | none =>
    match stripLead ['"'] s with
    | some r =>
      match parseJsonStringAux r.length r with
      | some (d, r2) => some (some d, r2)
      | none => none
    | none => none

/-- Model of `serde_json::from_str::<CommandConfig>` (src/command.rs line 73,
src/lib.rs line 166). -/
def parseConfig (s : List Char) : Option CommandConfig :=
  match stripLead progKey s with
  | none => none
  | some r1 =>
    match parseOsStr r1 with
    | none => none
    | some (prog, r2) =>
      match stripLead dirKey r2 with
      | none => none
      | some r3 =>
        match parseDir r3 with
        | none => none
        | some (dir, r4) =>
          match stripLead envKey r4 with
          | none => none
          | some r5 =>
            match parseBracketList parseEnvPair r5 with
            | none => none
            | some (env, r6) =>
              match stripLead argsKey r6 with
              | none => none
              | some r7 =>
                match parseBracketList parseOsStr r7 with
                | none => none
                | some (args, r8) =>
                  match stripLead ['\x7d'] r8 with
                  | none => none
                  | some r9 =>
                    if r9.all isJsonWs then some ⟨prog, dir, env, args⟩ else none

/-! ### The codec (src/command.rs lines 62-76, src/lib.rs lines 159-169) -/

/-- Error kinds of `CommandConfigError` (src/command.rs lines 88-93). -/
inductive CommandConfigErrorKind where
  | serialization
  | deserialization
  | hexDecode
  | utf8
deriving DecidableEq

/-- Model of `CommandConfig::encode`: `hex::encode(serde_json::to_string(..))`.
Serialization is total in the model (it can fail in Rust only for a `dir`
that is not valid UTF-8, which the model of paths excludes), so both the
`Result`-returning variant in src/command.rs and the unwrapping variant in
src/lib.rs are embedded by this one function. -/
def CommandConfig.encode (c : CommandConfig) : List Char :=
  hexEncode (utf8Encode (jsonOfConfig c))

/-- Model of `CommandConfig::decode` from src/command.rs lines 70-76: each
stage failure maps to its typed error kind. -/
def CommandConfig.decode (s : List Char) : Except CommandConfigErrorKind CommandConfig :=
  match hexDecode s with
  | none => .error .hexDecode
  | some bytes =>
    match utf8Decode bytes with
    | none => .error .utf8
    | some text =>
      match parseConfig text with
      | none => .error .deserialization
      | some c => .ok c

/-- Model of the duplicated `CommandConfig::decode` at the crate root
(src/lib.rs lines 165-168), which unwraps every stage:
`serde_json::from_str(&String::from_utf8(hex::decode(hexcode).unwrap()).unwrap()).unwrap()`.
A `none` result models the panic of one of the three unwraps. -/
def CommandConfig.decodeRoot (s : List Char) : Option CommandConfig :=
  (hexDecode s).bind fun bytes =>
    (utf8Decode bytes).bind fun text => parseConfig text

/-! ## TimerName (src/lib.rs lines 52-106) -/

/-- Error kinds of `TimerNameError` (src/lib.rs lines 92-95). -/
inductive TimerNameErrorKind where
  | notAscii
  | containsWhitespace
deriving DecidableEq

/-- Model of `TimerName::new` (src/lib.rs lines 60-68): rejects non-ASCII
input first, then input containing whitespace; on success the wrapped name is
the input itself. -/
def TimerName.new (name : List Char) : Except TimerNameErrorKind (List Char) :=
  if ¬ name.all charIsAscii then .error .notAscii
  else if name.any rustCharIsWhitespace then .error .containsWhitespace
  else .ok name

/-! ## Naive date-times (model of the chrono fragments used by the crate)

`register` formats the wake time with `"--on-calendar=%F %T"`, i.e. the
literal followed by `%Y-%m-%d %H:%M:%S`; `query_registration` parses the
extracted slice with `NaiveDateTime::parse_from_str(.., "%Y-%m-%d %H:%M:%S")`.
The embedding covers years 0-9999 for formatting (chrono additionally
handles negative years) and models parsing as chrono does: each numeric item
skips leading whitespace and then greedily takes up to its width in digits
(the year also accepts an explicit `+` with unlimited digits; chrono would
also accept a leading `-`, outside this embedding of year values as `Nat`),
literals must match exactly, the whole input must be consumed, and the
resulting fields are validated against the calendar (including leap years;
second 60 is accepted as chrono accepts leap seconds). -/

/-- Model of `NaiveDateTime` restricted to whole seconds, which is all the
`%Y-%m-%d %H:%M:%S` format can carry. -/
structure DateTime where
  year : Nat
  month : Nat
  day : Nat
  hour : Nat
  minute : Nat
  second : Nat
deriving DecidableEq

/-- Decimal rendering zero-padded to two digits. -/
def pad2 (n : Nat) : List Char := if n < 10 then '0' :: natToDigits n else natToDigits n

/-- Decimal rendering zero-padded to four digits. -/
def pad4 (n : Nat) : List Char :=
  if n < 10 then '0' :: '0' :: '0' :: natToDigits n
  else if n < 100 then '0' :: '0' :: natToDigits n
  else if n < 1000 then '0' :: natToDigits n
  else natToDigits n

/-- Model of chrono formatting with `%F %T` = `%Y-%m-%d %H:%M:%S`. -/
def formatDateTime (t : DateTime) : List Char :=
  pad4 t.year ++ '-' :: pad2 t.month ++ '-' :: pad2 t.day ++
  ' ' :: pad2 t.hour ++ ':' :: pad2 t.minute ++ ':' :: pad2 t.second

/-- Leading-whitespace skip performed by chrono before numeric items. -/
def skipWs (s : List Char) : List Char := s.dropWhile rustCharIsWhitespace

/-- Greedy run of at most `w` digits. -/
def takeDigitsUpTo : Nat → List Char → List Char × List Char
  | 0, s => ([], s)
  | _ + 1, [] => ([], [])
  | w + 1, c :: cs =>
    if c.isDigit then
      let p := takeDigitsUpTo w cs
      (c :: p.1, p.2)
    else ([], c :: cs)

/-- Numeric item parse: at least one digit, at most `w`. -/
def parseNumUpTo (w : Nat) (s : List Char) : Option (Nat × List Char) :=
  match takeDigitsUpTo w s with
  | ([], _) => none
  | (ds, r) => some (digitsVal ds, r)

/-- Year item: up to four digits, or an explicit `+` with unlimited digits. -/
def parseYear (s : List Char) : Option (Nat × List Char) :=
  match s with
  | '+' :: r => parseNat r
  | _ => parseNumUpTo 4 s

/-- Gregorian leap-year test, as in chrono. -/
def isLeapYear (y : Nat) : Bool := (y % 4 = 0 && y % 100 ≠ 0) || y % 400 = 0

/-- Number of days in a month of the proleptic Gregorian calendar. -/
def daysInMonth (y m : Nat) : Nat :=
  if m = 2 then (if isLeapYear y then 29 else 28)
  else if m = 4 ∨ m = 6 ∨ m = 9 ∨ m = 11 then 30
  else 31

/-- Calendar validation applied by `Parsed::to_naive_date` /
`to_naive_time` when resolving parsed fields. -/
def mkDateTime (y m d h mi s : Nat) : Option DateTime :=
  if 1 ≤ m ∧ m ≤ 12 ∧ 1 ≤ d ∧ d ≤ daysInMonth y m ∧ h < 24 ∧ mi < 60 ∧ s ≤ 60 ∧ y ≤ 262142
  then some ⟨y, m, d, h, mi, s⟩ else none

/-- Model of `NaiveDateTime::parse_from_str(s, "%Y-%m-%d %H:%M:%S")`
(src/lib.rs line 268). -/
def parseDateTime (s : List Char) : Option DateTime :=
  match parseYear (skipWs s) with
  | none => none
  | some (y, r1) =>
    match r1 with
    | '-' :: r2 =>
      match parseNumUpTo 2 (skipWs r2) with
      | none => none
      | some (m, r3) =>
        match r3 with
        | '-' :: r4 =>
          match parseNumUpTo 2 (skipWs r4) with
          | none => none
          | some (d, r5) =>
            match parseNumUpTo 2 (skipWs r5) with
            | none => none
            | some (h, r6) =>
              match r6 with
              | ':' :: r7 =>
                match parseNumUpTo 2 (skipWs r7) with
                | none => none
                | some (mi, r8) =>
                  match r8 with
                  | ':' :: r9 =>
                    match parseNumUpTo 2 (skipWs r9) with
                    | none => none
                    | some (sec, r10) =>
                      if r10 = [] then mkDateTime y m d h mi sec else none
                  | _ => none
              | _ => none
        | _ => none
    | _ => none

/-! ## Subprocess model

Every external effect of the crate is one subprocess invocation, built with
`std::process::Command` and executed through `run_command`.  The embedding
reifies an invocation as the program plus its argument list and abstracts the
operating system as an executor function; `none` models an
`std::io::Error` from `Command::output`. -/

/-- A built subprocess invocation: program name and arguments. -/
structure ExtCall where
  program : List Char
  args : List (List Char)
deriving DecidableEq

/-- Captured output of a completed subprocess: exit-status success flag plus
stdout and stderr bytes (model of `std::process::Output`). -/
structure Output where
  success : Bool
  stdout : List Nat
  stderr : List Nat
deriving DecidableEq

/-- Error kinds of `CommandError` (src/lib.rs lines 320-327). -/
inductive CommandErrorKind where
  | runCommand
  | commandFailed (output : Output)
deriving DecidableEq

/-- Model of `run_command` (src/lib.rs lines 345-364): an executor failure is
`RunCommand`, a non-success exit status is `CommandFailed` carrying the
captured output. -/
def run_command (res : Option Output) : Except CommandErrorKind Output :=
  match res with
  | none => .error .runCommand
  | some o => if o.success then .ok o else .error (.commandFailed o)

/-- Type of the abstracted operating system: what each subprocess invocation
returns. -/
def Exec : Type := ExtCall → Option Output

/-! ## register (src/lib.rs lines 172-193) -/

/-- The single `systemd-run` invocation built by `register`:
`systemd-run --user --unit=NAME "--on-calendar=%F %T" systemd-wake TOKEN`. -/
def registerCall (t : DateTime) (name : List Char) (c : CommandConfig) : ExtCall :=
  ⟨"systemd-run".toList,
   ["--user".toList,
    "--unit=".toList ++ name,
    "--on-calendar=".toList ++ formatDateTime t,
    "systemd-wake".toList,
    CommandConfig.encode c]⟩

/-- Model of `register`: encodes the command, builds the one `systemd-run`
invocation and classifies its outcome with `run_command`.  The executor is
consulted exactly once, at `registerCall`. -/
def register (exec : Exec) (t : DateTime) (name : List Char) (c : CommandConfig) :
    Except CommandErrorKind Unit :=
  match run_command (exec (registerCall t name c)) with
  | .error e => .error e
  | .ok _ => .ok ()

/-! ## Property extraction and query (src/lib.rs lines 216-275) -/

/-- Error kinds of `QueryError` (src/lib.rs lines 286-293). -/
inductive QueryErrorKind where
  | command (e : CommandErrorKind)
  | notLoaded
  | parseError
deriving DecidableEq

/-- The `systemctl --user show NAME.timer --property=KEY` invocation built by
`extract_property`. -/
def showCall (name property : List Char) : ExtCall :=
  ⟨"systemctl".toList,
   ["--user".toList, "show".toList, name ++ ".timer".toList,
    "--property=".toList ++ property]⟩

/-- Model of `extract_property` (src/lib.rs lines 216-242): runs the show
invocation, decodes stdout as UTF-8, strips the `KEY=` prefix and trims
trailing whitespace; any shape failure is `ParseError`. -/
def extract_property (exec : Exec) (name property : List Char) :
    Except QueryErrorKind (List Char) :=
  match run_command (exec (showCall name property)) with
  | .error e => .error (.command e)
  | .ok out =>
    match utf8Decode out.stdout with
    | none => .error .parseError
    | some s =>
      match stripLead (property ++ ['=']) s with
      | some value => .ok (trimEnd value)
      | none => .error .parseError

/-- Model of `query_registration` (src/lib.rs lines 245-275).  The outer
`Option` models a panic: the description token is decoded with the unwrapping
crate-root `CommandConfig::decode`, so a malformed token aborts the process
(`none`) instead of producing an error value. -/
def query_registration (exec : Exec) (name : List Char) :
    Option (Except QueryErrorKind (CommandConfig × DateTime)) :=
  match extract_property exec name ("LoadState".toList) with
  | .error e => some (.error e)
  | .ok v =>
    if v ≠ "loaded".toList then some (.error .notLoaded)
    else
      match extract_property exec name ("Description".toList) with
      | .error e => some (.error e)
      | .ok desc =>
        match splitOnce [' '] desc with
        | none => some (.error .parseError)
        | some (_, tok) =>
          match CommandConfig.decodeRoot tok with
          | none => none
          | some cmd =>
            match extract_property exec name ("TimersCalendar".toList) with
            | .error e => some (.error e)
            | .ok cal =>
              match splitOnce ("OnCalendar=".toList) cal with
              | none => some (.error .parseError)
              | some (_, r1) =>
                match splitOnce (" ;".toList) r1 with
                | none => some (.error .parseError)
                | some (dtStr, _) =>
                  match parseDateTime dtStr with
                  | none => some (.error .parseError)
                  | some t => some (.ok (cmd, t))

/-- The tail of `query_registration` from the point where the invocation has
been decoded (src/lib.rs lines 263-273): extracting and parsing the
calendar-timer property.  `query_registration` is proved equal to this staged
view once the earlier stages have succeeded. -/
def queryCalendarStage (exec : Exec) (name : List Char) (cmd : CommandConfig) :
    Except QueryErrorKind (CommandConfig × DateTime) :=
  match extract_property exec name ("TimersCalendar".toList) with
  | .error e => .error e
  | .ok cal =>
    match splitOnce ("OnCalendar=".toList) cal with
    | none => .error .parseError
    | some (_, r1) =>
      match splitOnce (" ;".toList) r1 with
      | none => .error .parseError
      | some (dtStr, _) =>
        match parseDateTime dtStr with
        | none => .error .parseError
        | some t => .ok (cmd, t)

/-- The tail of `query_registration` from the point where the description
value is in hand (src/lib.rs lines 257-261): splitting on the first space and
decoding the second part with the unwrapping crate-root decode. -/
def queryDescStage (exec : Exec) (name desc : List Char) :
    Option (Except QueryErrorKind (CommandConfig × DateTime)) :=
  match splitOnce [' '] desc with
  | none => some (.error .parseError)
  | some (_, tok) =>
    match CommandConfig.decodeRoot tok with
    | none => none
    | some cmd => some (queryCalendarStage exec name cmd)

/-! ## main (src/main.rs) -/

/-- Observable outcome of the binary entry point. -/
inductive MainResult where
  | noAction
  | panicked
  | ran (c : CommandConfig) (res : Except CommandErrorKind Output)

/-- Model of `main` (src/main.rs): with more than one argument it decodes
argument 1 as a token (unwrapping decode: a malformed token panics), runs the
decoded command through `run_command`, and discards the result with `_ =`,
so a failing inner command still ends in `.ran` rather than a failure of
`main` itself.  The executor here maps the decoded command to its outcome. -/
def mainModel (args : List (List Char)) (exec : CommandConfig → Option Output) : MainResult :=
  match args with
  | _ :: tok :: _ =>
    match CommandConfig.decodeRoot tok with
    | none => .panicked
    | some c => .ran c (run_command (exec c))
  | _ => .noAction

/-- A run of `main` completes normally unless decoding panicked. -/
def MainResult.completesNormally : MainResult → Bool
  | .panicked => false
  | _ => true

/-! ## Concrete data used by witnesses and counterexamples -/

/-- Sample configuration: program `echo`, no working directory, an
environment-edit sequence with a duplicated key holding one set and one unset
entry, and an empty argument list. -/
def sampleConfig : CommandConfig :=
  ⟨[101, 99, 104, 111], none, [([75], some [86]), ([75], none)], []⟩

/-- Sample wake time 2024-01-02 03:04:05. -/
def sampleTime : DateTime := ⟨2024, 1, 2, 3, 4, 5⟩

/-- Sample validated unit name. -/
def sampleName : List Char := "test-unit-1".toList

/-- A captured output with failing exit status. -/
def failOutput : Output := ⟨false, [], []⟩

/-- Executor of a world in which every subprocess succeeds and every
`systemctl show` reports a loaded unit. -/
def execLoaded : Exec := fun _ => some ⟨true, utf8Encode ("LoadState=loaded".toList), []⟩

/-- Executor of a world whose unit is not loaded. -/
def execInactive : Exec := fun _ => some ⟨true, utf8Encode ("LoadState=inactive\x0a".toList), []⟩

/-- Executor of a world holding a complete, well-formed registration of
`sampleConfig` at `sampleTime` under `sampleName`. -/
def execRegistered : Exec := fun call =>
  if call = showCall sampleName ("LoadState".toList) then
    some ⟨true, utf8Encode ("LoadState=loaded\x0a".toList), []⟩
  else if call = showCall sampleName ("Description".toList) then
    some ⟨true, utf8Encode ("Description=systemd-wake ".toList ++ CommandConfig.encode sampleConfig), []⟩
  else if call = showCall sampleName ("TimersCalendar".toList) then
    some ⟨true, utf8Encode ("TimersCalendar=\x7b OnCalendar=2024-01-02 03:04:05 ;next_elapse\x7d".toList), []⟩
  else none

/-- Executor identical to `execRegistered` except that the description
separates the unit text from the token with a tab instead of a space. -/
def execTabDesc : Exec := fun call =>
  if call = showCall sampleName ("LoadState".toList) then
    some ⟨true, utf8Encode ("LoadState=loaded\x0a".toList), []⟩
  else if call = showCall sampleName ("Description".toList) then
    some ⟨true, utf8Encode ("Description=unit\x09".toList ++ CommandConfig.encode sampleConfig), []⟩
  else if call = showCall sampleName ("TimersCalendar".toList) then
    some ⟨true, utf8Encode ("TimersCalendar=\x7b OnCalendar=2024-01-02 03:04:05 ;next_elapse\x7d".toList), []⟩
  else none


/-- The lowercase hexadecimal alphabet (the character set of encoded tokens). -/
def hexAlphabet : List Char := "0123456789abcdef".toList

/-! # Helper lemmas -/

theorem stripLead_append (p r : List Char) : stripLead p (p ++ r) = some r := by
  induction p with
  | nil => rfl
  | cons c cs ih => simpa [stripLead] using ih

theorem char_toNat_lt (c : Char) : c.toNat < 0x110000 := by
  have h : Nat.isValidChar c.toNat := c.valid
  rcases h with h | h <;> omega

theorem char_not_surrogate (c : Char) : c.toNat < 0xD800 ∨ 0xDFFF < c.toNat := by
  have h : Nat.isValidChar c.toNat := c.valid
  rcases h with h | h
  · exact Or.inl h
  · exact Or.inr h.1

theorem hexVal_hexDigitChar (n : Nat) (h : n < 16) : hexVal (hexDigitChar n) = some n := by
  interval_cases n <;> decide

theorem hexDecode_hexEncode (bs : List Nat) (h : ∀ b ∈ bs, b < 256) :
    hexDecode (hexEncode bs) = some bs := by
  induction bs with
  | nil => rfl
  | cons b t ih =>
    have hb : b < 256 := h b (by simp)
    have h1 : b / 16 < 16 := by omega
    have h2 : b % 16 < 16 := by omega
    have ih2 := ih (fun x hx => h x (by simp [hx]))
    simp only [hexEncode, List.flatMap_cons, hexEncodeByte, List.cons_append, List.nil_append]
    simp only [hexDecode, hexVal_hexDigitChar _ h1, hexVal_hexDigitChar _ h2]
    rw [show hexEncode t = t.flatMap hexEncodeByte from rfl] at ih2
    rw [ih2]
    show some ((b / 16 * 16 + b % 16) :: t) = some (b :: t)
    have : b / 16 * 16 + b % 16 = b := by omega
    rw [this]

theorem digitChar_toNat (k : Nat) (h : k < 10) : (digitChar k).toNat = 48 + k := by
  interval_cases k <;> decide

theorem digitChar_isDigit (k : Nat) (h : k < 10) : (digitChar k).isDigit = true := by
  interval_cases k <;> decide

theorem natDigitsLE_digits (fuel n : Nat) :
    ∀ c ∈ natDigitsLE fuel n, c.isDigit = true := by
  induction fuel generalizing n with
  | zero => simp [natDigitsLE]
  | succ fuel ih =>
    intro c hc
    rw [natDigitsLE] at hc
    by_cases h0 : n = 0
    · simp [h0] at hc
    · rw [if_neg h0] at hc
      rcases List.mem_cons.mp hc with h | h
      · subst h; exact digitChar_isDigit _ (Nat.mod_lt _ (by omega))
      · exact ih _ c h

theorem natToDigits_digits (n : Nat) : ∀ c ∈ natToDigits n, c.isDigit = true := by
  intro c hc
  rw [natToDigits] at hc
  by_cases h0 : n = 0
  · simp [h0] at hc; subst hc; decide
  · rw [if_neg h0] at hc
    exact natDigitsLE_digits n n c (List.mem_reverse.mp hc)

theorem natToDigits_ne_nil (n : Nat) : natToDigits n ≠ [] := by
  rw [natToDigits]
  by_cases h0 : n = 0
  · simp [h0]
  · rw [if_neg h0]
    obtain ⟨m, hm⟩ := Nat.exists_eq_succ_of_ne_zero h0
    subst hm
    rw [natDigitsLE, if_neg (by omega)]
    simp

theorem digitsVal_append_one (l : List Char) (c : Char) :
    digitsVal (l ++ [c]) = digitsVal l * 10 + (c.toNat - 48) := by
  simp [digitsVal, List.foldl_append]

theorem natDigitsLE_val (fuel : Nat) : ∀ n, n ≤ fuel →
    digitsVal ((natDigitsLE fuel n).reverse) = n := by
  induction fuel with
  | zero => intro n hn; interval_cases n; rfl
  | succ fuel ih =>
    intro n hn
    rw [natDigitsLE]
    by_cases h0 : n = 0
    · simp [h0, digitsVal]
    · rw [if_neg h0]
      have hdiv : n / 10 ≤ fuel := by omega
      simp only [List.reverse_cons]
      rw [digitsVal_append_one, ih _ hdiv, digitChar_toNat _ (Nat.mod_lt _ (by omega))]
      omega

theorem digitsVal_natToDigits (n : Nat) : digitsVal (natToDigits n) = n := by
  rw [natToDigits]
  by_cases h0 : n = 0
  · simp [h0]; decide
  · rw [if_neg h0]; exact natDigitsLE_val n n (le_refl n)

theorem takeDigits_append (ds rest : List Char) (hds : ∀ c ∈ ds, c.isDigit = true)
    (hrest : ∀ c, rest.head? = some c → c.isDigit = false) :
    takeDigits (ds ++ rest) = (ds, rest) := by
  induction ds with
  | nil =>
    cases rest with
    | nil => rfl
    | cons c cs => simp [takeDigits, hrest c rfl]
  | cons c cs ih =>
    have hc : c.isDigit = true := hds c (by simp)
    have ih2 := ih (fun x hx => hds x (by simp [hx]))
    simp [takeDigits, hc, ih2]

theorem parseNat_encode (n : Nat) (rest : List Char)
    (hrest : ∀ c, rest.head? = some c → c.isDigit = false) :
    parseNat (natToDigits n ++ rest) = some (n, rest) := by
  rw [parseNat, takeDigits_append _ _ (natToDigits_digits n) hrest]
  obtain ⟨d, t, hd⟩ : ∃ d t, natToDigits n = d :: t := by
    cases h : natToDigits n with
    | nil => exact absurd h (natToDigits_ne_nil n)
    | cons d t => exact ⟨d, t, rfl⟩
  rw [hd]
  have := digitsVal_natToDigits n
  rw [hd] at this
  simp [this]

theorem utf8EncodeNat_lt (n : Nat) (h : n < 0x110000) : ∀ b ∈ utf8EncodeNat n, b < 256 := by
  intro b hb
  rw [utf8EncodeNat] at hb
  split_ifs at hb with h1 h2 h3
  · simp at hb; omega
  · simp at hb; rcases hb with hb | hb <;> omega
  · simp at hb; rcases hb with hb | hb | hb <;> omega
  · simp at hb; rcases hb with hb | hb | hb | hb <;> omega

theorem utf8EncodeNat_ne_nil (n : Nat) : utf8EncodeNat n ≠ [] := by
  rw [utf8EncodeNat]
  split_ifs <;> simp

theorem utf8DecodeOne_encode (c : Char) (rest : List Nat) :
    utf8DecodeOne (utf8EncodeNat c.toNat ++ rest) = some (c.toNat, rest) := by
  have hv := char_toNat_lt c
  have hs := char_not_surrogate c
  rw [utf8EncodeNat]
  by_cases h1 : c.toNat < 0x80
  · rw [if_pos h1]
    simp only [List.cons_append, List.nil_append, utf8DecodeOne]
    rw [if_pos h1]
  · by_cases h2 : c.toNat < 0x800
    · rw [if_neg h1, if_pos h2]
      simp only [List.cons_append, List.nil_append, utf8DecodeOne]
      rw [if_neg (by omega), if_neg (by omega), if_pos (by omega)]
      rw [if_pos ⟨by omega, by omega⟩]
      have : (0xC0 + c.toNat / 64 - 0xC0) * 64 + (0x80 + c.toNat % 64 - 0x80) = c.toNat := by
        omega
      rw [this]
    · by_cases h3 : c.toNat < 0x10000
      · rw [if_neg h1, if_neg h2, if_pos h3]
        simp only [List.cons_append, List.nil_append, utf8DecodeOne]
        rw [if_neg (by omega), if_neg (by omega), if_neg (by omega), if_pos (by omega)]
        rw [if_pos ⟨⟨by omega, by omega⟩, by omega, by omega⟩]
        have : (0xE0 + c.toNat / 4096 - 0xE0) * 4096 + (0x80 + c.toNat / 64 % 64 - 0x80) * 64 +
            (0x80 + c.toNat % 64 - 0x80) = c.toNat := by omega
        rw [if_neg (by omega), this]
      · rw [if_neg h1, if_neg h2, if_neg h3]
        simp only [List.cons_append, List.nil_append, utf8DecodeOne]
        rw [if_neg (by omega), if_neg (by omega), if_neg (by omega), if_neg (by omega),
          if_pos (by omega)]
        rw [if_pos ⟨⟨by omega, by omega⟩, ⟨by omega, by omega⟩, by omega, by omega⟩]
        have : (0xF0 + c.toNat / 262144 - 0xF0) * 262144 + (0x80 + c.toNat / 4096 % 64 - 0x80) * 4096 +
            (0x80 + c.toNat / 64 % 64 - 0x80) * 64 + (0x80 + c.toNat % 64 - 0x80) = c.toNat := by
          omega
        rw [if_neg (by omega), this]

theorem utf8Encode_length_ge (s : List Char) : s.length ≤ (utf8Encode s).length := by
  induction s with
  | nil => simp [utf8Encode]
  | cons c t ih =>
    simp only [utf8Encode, List.flatMap_cons, List.length_append, List.length_cons]
    have h1 : 1 ≤ (utf8EncodeNat c.toNat).length := by
      cases h : utf8EncodeNat c.toNat with
      | nil => exact absurd h (utf8EncodeNat_ne_nil _)
      | cons a b => simp
    have h2 : t.length ≤ (utf8Encode t).length := ih
    rw [show utf8Encode t = t.flatMap (fun c => utf8EncodeNat c.toNat) from rfl] at h2
    omega

theorem utf8DecodeAux_encode (s : List Char) : ∀ fuel, s.length ≤ fuel →
    utf8DecodeAux fuel (utf8Encode s) = some s := by
  induction s with
  | nil => intro fuel _; cases fuel <;> rfl
  | cons c t ih =>
    intro fuel hfuel
    obtain ⟨f, hf⟩ : ∃ f, fuel = f + 1 := by
      cases fuel with
      | zero => simp at hfuel
      | succ f => exact ⟨f, rfl⟩
    subst hf
    have henc : utf8Encode (c :: t) = utf8EncodeNat c.toNat ++ utf8Encode t := by
      simp [utf8Encode]
    obtain ⟨b, bs, hb⟩ : ∃ b bs, utf8EncodeNat c.toNat ++ utf8Encode t = b :: bs := by
      cases h : utf8EncodeNat c.toNat with
      | nil => exact absurd h (utf8EncodeNat_ne_nil _)
      | cons a l => exact ⟨a, l ++ utf8Encode t, by simp⟩
    rw [henc, hb, utf8DecodeAux, ← hb, utf8DecodeOne_encode c (utf8Encode t)]
    simp only []
    rw [ih f (by simp at hfuel; omega)]
    simp only []
    rw [Char.ofNat_toNat]

theorem utf8Decode_utf8Encode (s : List Char) : utf8Decode (utf8Encode s) = some s :=
  utf8DecodeAux_encode s (utf8Encode s).length (utf8Encode_length_ge s)

theorem utf8Encode_lt (s : List Char) : ∀ b ∈ utf8Encode s, b < 256 := by
  intro b hb
  rw [utf8Encode, List.mem_flatMap] at hb
  obtain ⟨c, _, hc⟩ := hb
  exact utf8EncodeNat_lt c.toNat (char_toNat_lt c) b hc

theorem escapeString_cons (c : Char) (t : List Char) :
    escapeString (c :: t) = escapeChar c ++ escapeString t := by
  simp [escapeString]

theorem parseJsonStringAux_esc (fuel : Nat) (rest : List Char) :
    parseJsonStringAux (fuel + 1) ('\\' :: rest) =
      (match readEscape rest with
       | some (ch, rest2) =>
         match parseJsonStringAux fuel rest2 with
         | some (cs, r) => some (ch :: cs, r)
         | none => none
       | none => none) := rfl

theorem parseJsonStringAux_raw (fuel : Nat) (c : Char) (rest : List Char)
    (h1 : ¬ c = '"') (h2 : ¬ c = '\\') (h3 : ¬ c.toNat < 0x20) :
    parseJsonStringAux (fuel + 1) (c :: rest) =
      (match parseJsonStringAux fuel rest with
       | some (cs, r) => some (c :: cs, r)
       | none => none) := by
  rw [parseJsonStringAux, if_neg h1, if_neg h2, if_neg h3]
  try rfl

theorem readEscape_u00 (c : Char) (rest : List Char) (h : c.toNat < 0x20) :
    readEscape ('u' :: '0' :: '0' ::
      hexDigitChar (c.toNat / 16) :: hexDigitChar (c.toNat % 16) :: rest) = some (c, rest) := by
  conv_rhs => rw [← Char.ofNat_toNat c]
  generalize hgen : c.toNat = k at h ⊢
  interval_cases k <;> rfl

theorem parseJsonStringAux_escape (s rest : List Char) : ∀ fuel, s.length < fuel →
    parseJsonStringAux fuel (escapeString s ++ '"' :: rest) = some (s, rest) := by
  induction s with
  | nil =>
    intro fuel hfuel
    obtain ⟨f, rfl⟩ : ∃ f, fuel = f + 1 := ⟨fuel - 1, by omega⟩
    rfl
  | cons c t ih =>
    intro fuel hfuel
    obtain ⟨f, rfl⟩ : ∃ f, fuel = f + 1 := ⟨fuel - 1, by omega⟩
    have hf : t.length < f := by simp at hfuel; omega
    rw [escapeString_cons, List.append_assoc, escapeChar]
    by_cases h1 : c = '"'
    · rw [if_pos h1]
      simp only [List.cons_append, List.nil_append]
      rw [parseJsonStringAux_esc,
        show readEscape ('"' :: (escapeString t ++ '"' :: rest)) =
          some ('"', escapeString t ++ '"' :: rest) from rfl]
      simp only [ih f hf, h1]
    · rw [if_neg h1]
      by_cases h2 : c = '\\'
      · rw [if_pos h2]
        simp only [List.cons_append, List.nil_append]
        rw [parseJsonStringAux_esc,
          show readEscape ('\\' :: (escapeString t ++ '"' :: rest)) =
            some ('\\', escapeString t ++ '"' :: rest) from rfl]
        simp only [ih f hf, h2]
      · rw [if_neg h2]
        by_cases h3 : c = '\x08'
        · rw [if_pos h3]
          simp only [List.cons_append, List.nil_append]
          rw [parseJsonStringAux_esc,
            show readEscape ('b' :: (escapeString t ++ '"' :: rest)) =
              some ('\x08', escapeString t ++ '"' :: rest) from rfl]
          simp only [ih f hf, h3]
        · rw [if_neg h3]
          by_cases h4 : c = '\x09'
          · rw [if_pos h4]
            simp only [List.cons_append, List.nil_append]
            rw [parseJsonStringAux_esc,
              show readEscape ('t' :: (escapeString t ++ '"' :: rest)) =
                some ('\x09', escapeString t ++ '"' :: rest) from rfl]
            simp only [ih f hf, h4]
          · rw [if_neg h4]
            by_cases h5 : c = '\x0a'
            · rw [if_pos h5]
              simp only [List.cons_append, List.nil_append]
              rw [parseJsonStringAux_esc,
                show readEscape ('n' :: (escapeString t ++ '"' :: rest)) =
                  some ('\x0a', escapeString t ++ '"' :: rest) from rfl]
              simp only [ih f hf, h5]
            · rw [if_neg h5]
              by_cases h6 : c = '\x0c'
              · rw [if_pos h6]
                simp only [List.cons_append, List.nil_append]
                rw [parseJsonStringAux_esc,
                  show readEscape ('f' :: (escapeString t ++ '"' :: rest)) =
                    some ('\x0c', escapeString t ++ '"' :: rest) from rfl]
                simp only [ih f hf, h6]
              · rw [if_neg h6]
                by_cases h7 : c = '\x0d'
                · rw [if_pos h7]
                  simp only [List.cons_append, List.nil_append]
                  rw [parseJsonStringAux_esc,
                    show readEscape ('r' :: (escapeString t ++ '"' :: rest)) =
                      some ('\x0d', escapeString t ++ '"' :: rest) from rfl]
                  simp only [ih f hf, h7]
                · rw [if_neg h7]
                  by_cases h8 : c.toNat < 0x20
                  · rw [if_pos h8]
                    simp only [List.cons_append, List.nil_append]
                    rw [parseJsonStringAux_esc, readEscape_u00 c _ h8]
                    simp only [ih f hf]
                  · rw [if_neg h8]
                    simp only [List.cons_append, List.nil_append]
                    rw [parseJsonStringAux_raw f c _ h1 h2 h8]
                    simp only [ih f hf]


theorem parseSepListAux_rt {α : Type} (elem : List Char → Option (α × List Char))
    (ser : α → List Char) (P : List Char → Prop)
    (hP1 : ∀ r, P (',' :: r)) :
    ∀ (xs : List α), xs ≠ [] →
    (∀ x ∈ xs, ∀ r, P r → elem (ser x ++ r) = some (x, r)) →
    ∀ rest, P rest → rest.head? ≠ some ',' →
    ∀ fuel, xs.length ≤ fuel →
    parseSepListAux elem fuel (sepJoin (xs.map ser) ++ rest) = some (xs, rest) := by
  intro xs
  induction xs with
  | nil => simp
  | cons x t ih =>
    intro _ helem rest hrest hcomma fuel hfuel
    obtain ⟨f, rfl⟩ : ∃ f, fuel = f + 1 := by
      cases fuel with
      | zero => simp at hfuel
      | succ f => exact ⟨f, rfl⟩
    cases t with
    | nil =>
      simp only [List.map_cons, List.map_nil, sepJoin]
      rw [parseSepListAux, helem x (by simp) rest hrest]
      simp only []
      cases rest with
      | nil => rfl
      | cons rc rrest =>
        have hne : rc ≠ ',' := fun h => hcomma (by simp [h])
        split
        · rename_i heq
          injection heq with heq1 _
          exact absurd heq1 hne
        · rfl
    | cons y u =>
      simp only [List.map_cons, sepJoin, List.cons_append, List.append_assoc]
      rw [parseSepListAux,
        helem x (by simp) (',' :: (sepJoin (ser y :: u.map ser) ++ rest)) (hP1 _)]
      simp only []
      have ihr := ih (by simp)
        (fun z hz => helem z (by simp [hz]))
        rest hrest hcomma f (by simp at hfuel ⊢; omega)
      simp only [List.map_cons] at ihr
      rw [ihr]

theorem sepJoin_length_ge {α : Type} (ser : α → List Char) (xs : List α)
    (h : ∀ x ∈ xs, ser x ≠ []) : xs.length ≤ (sepJoin (xs.map ser)).length := by
  induction xs with
  | nil => simp [sepJoin]
  | cons x t ih =>
    cases t with
    | nil =>
      simp only [List.map_cons, List.map_nil, sepJoin, List.length_cons, List.length_nil]
      have := h x (by simp)
      cases hx : ser x with
      | nil => exact absurd hx this
      | cons a b => simp [hx]
    | cons y u =>
      simp only [List.map_cons, sepJoin, List.length_append, List.length_cons]
      have h2 := ih (fun z hz => h z (by simp [hz]))
      simp only [List.map_cons] at h2
      simp only [List.length_cons, List.length_map] at h2 ⊢
      omega

theorem parseBracketList_rt {α : Type} (elem : List Char → Option (α × List Char))
    (ser : α → List Char) (P : List Char → Prop)
    (hP1 : ∀ r, P (',' :: r))
    (xs : List α) (rest : List Char)
    (hx : ∀ x ∈ xs, ∀ r, P r → elem (ser x ++ r) = some (x, r))
    (hP0 : P (']' :: rest))
    (hhead : ∀ x ∈ xs, ∃ c t, ser x = c :: t ∧ c ≠ ']') :
    parseBracketList elem (sepJoin (xs.map ser) ++ ']' :: rest) = some (xs, rest) := by
  cases xs with
  | nil => rfl
  | cons x t =>
    obtain ⟨c, ct, hser, hcne⟩ := hhead x (by simp)
    have hne : ∀ z ∈ x :: t, ser z ≠ [] := by
      intro z hz
      obtain ⟨c2, t2, hs2, _⟩ := hhead z hz
      simp [hs2]
    have hlen : (x :: t).length ≤ (sepJoin ((x :: t).map ser) ++ ']' :: rest).length := by
      have := sepJoin_length_ge ser (x :: t) hne
      simp only [List.length_append]
      omega
    have hheadc : (sepJoin ((x :: t).map ser) ++ ']' :: rest).head? = some c := by
      cases t with
      | nil => simp [sepJoin, hser]
      | cons y u => simp [sepJoin, hser]
    rw [parseBracketList, if_neg (by rw [hheadc]; simp [hcne])]
    rw [parseSepListAux_rt elem ser P hP1 (x :: t) (by simp) hx (']' :: rest) hP0
      (by simp) _ hlen]
    rfl

theorem parseU8_encode (n : Nat) (hn : n < 256) (rest : List Char)
    (hrest : ∀ c, rest.head? = some c → c.isDigit = false) :
    parseU8 (natToDigits n ++ rest) = some (n, rest) := by
  rw [parseU8, parseNat_encode n rest hrest]
  simp only []
  rw [if_pos (by omega)]

theorem headNotDigit_comma (r : List Char) :
    ∀ c, (',' :: r).head? = some c → c.isDigit = false := by
  intro c hc
  simp at hc
  subst hc
  decide

theorem headNotDigit_bracket (r : List Char) :
    ∀ c, (']' :: r).head? = some c → c.isDigit = false := by
  intro c hc
  simp at hc
  subst hc
  decide

theorem natToDigits_head_ne_bracket (n : Nat) :
    ∃ c t, natToDigits n = c :: t ∧ c ≠ ']' := by
  cases h : natToDigits n with
  | nil => exact absurd h (natToDigits_ne_nil n)
  | cons c t =>
    refine ⟨c, t, rfl, ?_⟩
    have hd : c.isDigit = true := natToDigits_digits n c (by simp [h])
    intro hcc
    subst hcc
    simp at hd

theorem parseOsStr_encode (bs : List Nat) (h : ∀ b ∈ bs, b < 256) (rest : List Char) :
    parseOsStr (jsonOsStr bs ++ rest) = some (bs, rest) := by
  rw [jsonOsStr]
  simp only [List.append_assoc, List.cons_append, List.nil_append]
  rw [parseOsStr, stripLead_append osOpen _]
  simp only []
  rw [parseBracketList_rt parseU8 natToDigits
    (fun r => ∀ c, r.head? = some c → c.isDigit = false)
    headNotDigit_comma bs ('\x7d' :: rest)
    (fun b hb r hr => parseU8_encode b (h b hb) r hr)
    (headNotDigit_bracket _)
    (fun b _ => natToDigits_head_ne_bracket b)]
  rfl

theorem parseEnvPair_encode (kv : List Nat × Option (List Nat))
    (hk : ∀ b ∈ kv.1, b < 256) (hv : ∀ v, kv.2 = some v → ∀ b ∈ v, b < 256)
    (rest : List Char) :
    parseEnvPair (jsonEnvPair kv ++ rest) = some (kv, rest) := by
  obtain ⟨k, v⟩ := kv
  rw [jsonEnvPair]
  simp only [List.cons_append, List.append_assoc, List.nil_append]
  rw [parseEnvPair]
  rw [parseOsStr_encode k hk _]
  simp only []
  cases v with
  | none =>
    rw [stripLead_append nullLit _]
    rfl
  | some vv =>
    rw [show stripLead nullLit (jsonOsStr vv ++ (']' :: rest)) = none from rfl]
    rw [parseOsStr_encode vv (hv vv rfl) _]
    rfl

theorem escapeChar_ne_nil (c : Char) : escapeChar c ≠ [] := by
  rw [escapeChar]
  split_ifs <;> simp

theorem escapeString_length_ge (s : List Char) : s.length ≤ (escapeString s).length := by
  induction s with
  | nil => simp [escapeString]
  | cons c t ih =>
    have h1 : 1 ≤ (escapeChar c).length := by
      cases h : escapeChar c with
      | nil => exact absurd h (escapeChar_ne_nil c)
      | cons a b => simp
    have : escapeString (c :: t) = escapeChar c ++ escapeString t := by simp [escapeString]
    rw [this]
    simp only [List.length_append, List.length_cons]
    omega

theorem parseDir_encode (d : Option (List Char)) (rest : List Char) :
    parseDir (jsonDir d ++ rest) = some (d, rest) := by
  cases d with
  | none =>
    rw [jsonDir, parseDir, stripLead_append nullLit rest]
  | some dd =>
    rw [jsonDir]
    simp only [List.cons_append, List.append_assoc, List.nil_append]
    rw [parseDir]
    rw [show stripLead nullLit ('"' :: (escapeString dd ++ '"' :: rest)) = none from rfl]
    simp only []
    rw [show stripLead ['"'] ('"' :: (escapeString dd ++ '"' :: rest)) =
      some (escapeString dd ++ '"' :: rest) from rfl]
    simp only []
    rw [parseJsonStringAux_escape dd rest _ (by
      simp only [List.length_append, List.length_cons]
      have := escapeString_length_ge dd
      omega)]

theorem jsonEnvPair_head (kv : List Nat × Option (List Nat)) :
    ∃ c t, jsonEnvPair kv = c :: t ∧ c ≠ ']' :=
  ⟨'[', _, rfl, by decide⟩

theorem jsonOsStr_head (bs : List Nat) :
    ∃ c t, jsonOsStr bs = c :: t ∧ c ≠ ']' :=
  ⟨'\x7b', _, rfl, by decide⟩

theorem parseConfig_encode (c : CommandConfig) (h : c.wfb = true) :
    parseConfig (jsonOfConfig c) = some c := by
  obtain ⟨prog, dir, env, args⟩ := c
  rw [CommandConfig.wfb] at h
  simp only [Bool.and_eq_true, List.all_eq_true, decide_eq_true_eq] at h
  obtain ⟨⟨hprog, henv⟩, hargs⟩ := h
  rw [jsonOfConfig]
  simp only [List.append_assoc, List.cons_append, List.nil_append]
  rw [parseConfig, stripLead_append progKey _]
  simp only []
  rw [parseOsStr_encode prog hprog _]
  simp only []
  rw [stripLead_append dirKey _]
  simp only []
  rw [parseDir_encode dir _]
  simp only []
  rw [stripLead_append envKey _]
  simp only []
  rw [parseBracketList_rt parseEnvPair jsonEnvPair (fun _ => True) (fun _ => trivial)
    env _
    (fun kv hkv r _ => parseEnvPair_encode kv
      (fun b hb => by
        have := henv kv hkv
        simp only [Bool.and_eq_true, List.all_eq_true, decide_eq_true_eq] at this
        exact this.1 b hb)
      (fun v hv2 b hb => by
        have := henv kv hkv
        simp only [Bool.and_eq_true] at this
        have h2 := this.2
        rw [hv2] at h2
        simp only [Option.all_some, List.all_eq_true, decide_eq_true_eq] at h2
        exact h2 b hb)
      r)
    trivial
    (fun kv _ => jsonEnvPair_head kv)]
  simp only []
  rw [stripLead_append argsKey _]
  simp only []
  rw [parseBracketList_rt parseOsStr jsonOsStr (fun _ => True) (fun _ => trivial)
    args _
    (fun a ha r _ => parseOsStr_encode a (hargs a ha) r)
    trivial
    (fun a _ => jsonOsStr_head a)]
  rfl

theorem decode_encode (c : CommandConfig) (h : c.wfb = true) :
    CommandConfig.decode (CommandConfig.encode c) = .ok c := by
  rw [CommandConfig.encode, CommandConfig.decode,
    hexDecode_hexEncode _ (utf8Encode_lt _)]
  simp only []
  rw [utf8Decode_utf8Encode]
  simp only []
  rw [parseConfig_encode c h]

theorem decodeRoot_encode (c : CommandConfig) (h : c.wfb = true) :
    CommandConfig.decodeRoot (CommandConfig.encode c) = some c := by
  rw [CommandConfig.encode, CommandConfig.decodeRoot,
    hexDecode_hexEncode _ (utf8Encode_lt _)]
  simp only [Option.some_bind]
  rw [utf8Decode_utf8Encode]
  simp only [Option.some_bind]
  rw [parseConfig_encode c h]

theorem decodeRoot_eq_toOption (s : List Char) :
    CommandConfig.decodeRoot s = (CommandConfig.decode s).toOption := by
  rcases h1 : hexDecode s with _ | bs
  · simp [CommandConfig.decodeRoot, CommandConfig.decode, h1, Except.toOption]
  · rcases h2 : utf8Decode bs with _ | t
    · simp [CommandConfig.decodeRoot, CommandConfig.decode, h1, h2, Except.toOption]
    · rcases h3 : parseConfig t with _ | cc <;>
        simp [CommandConfig.decodeRoot, CommandConfig.decode, h1, h2, h3, Except.toOption]


theorem hexDigitChar_mem (n : Nat) (h : n < 16) : hexDigitChar n ∈ hexAlphabet := by
  interval_cases n <;> decide

theorem hexAlphabet_not_ws : ∀ ch ∈ hexAlphabet, rustCharIsWhitespace ch = false := by decide

theorem encode_subset_hexAlphabet (c : CommandConfig) :
    ∀ ch ∈ CommandConfig.encode c, ch ∈ hexAlphabet := by
  intro ch hch
  rw [CommandConfig.encode, hexEncode, List.mem_flatMap] at hch
  obtain ⟨b, hb, hch⟩ := hch
  have hb256 := utf8Encode_lt _ b hb
  rw [hexEncodeByte] at hch
  simp only [List.mem_cons, List.not_mem_nil, or_false] at hch
  rcases hch with h | h <;> subst h
  · exact hexDigitChar_mem _ (by omega)
  · exact hexDigitChar_mem _ (by omega)

theorem dropWhile_append_of_all {p : Char → Bool} (a b : List Char)
    (h : ∀ x ∈ a, p x = true) : (a ++ b).dropWhile p = b.dropWhile p := by
  induction a with
  | nil => rfl
  | cons x t ih =>
    simp only [List.cons_append, List.dropWhile_cons, h x (by simp)]
    exact ih (fun y hy => h y (by simp [hy]))

theorem trimEnd_append_ws (v ws : List Char) (h : ∀ c ∈ ws, rustCharIsWhitespace c = true) :
    trimEnd (v ++ ws) = trimEnd v := by
  rw [trimEnd, trimEnd, List.reverse_append,
    dropWhile_append_of_all _ _ (fun x hx => h x (List.mem_reverse.mp hx))]

theorem extract_property_ok (exec : Exec) (name property : List Char) (out : Output)
    (hexec : exec (showCall name property) = some out) (hsucc : out.success = true)
    (v : List Char) (hstdout : out.stdout = utf8Encode (property ++ '=' :: v)) :
    extract_property exec name property = .ok (trimEnd v) := by
  rw [extract_property, hexec, run_command]
  rw [if_pos hsucc]
  simp only []
  rw [hstdout, utf8Decode_utf8Encode]
  simp only []
  rw [show property ++ '=' :: v = (property ++ ['=']) ++ v by simp, stripLead_append]

theorem extract_property_parseError_iff (exec : Exec) (name property : List Char) (out : Output)
    (hexec : exec (showCall name property) = some out) (hsucc : out.success = true) :
    extract_property exec name property = .error .parseError ↔
      utf8Decode out.stdout = none ∨
      ∃ s, utf8Decode out.stdout = some s ∧ stripLead (property ++ ['=']) s = none := by
  rw [extract_property, hexec, run_command, if_pos hsucc]
  rcases h1 : utf8Decode out.stdout with _ | s
  · simp [h1]
  · rcases h2 : stripLead (property ++ ['=']) s with _ | val
    · simp [h1, h2]
    · simp [h1, h2]

theorem extract_property_error_shape (exec : Exec) (name property : List Char)
    (e : QueryErrorKind) (h : extract_property exec name property = .error e) :
    e = .parseError ∨ ∃ ce, e = .command ce := by
  rw [extract_property] at h
  rcases hr : run_command (exec (showCall name property)) with e2 | out
  · rw [hr] at h
    simp only [] at h
    simp only [Except.error.injEq] at h
    exact Or.inr ⟨e2, h.symm⟩
  · rw [hr] at h
    simp only [] at h
    rcases h1 : utf8Decode out.stdout with _ | s
    · rw [h1] at h
      simp only [Except.error.injEq] at h
      exact Or.inl h.symm
    · rw [h1] at h
      simp only [] at h
      rcases h2 : stripLead (property ++ ['=']) s with _ | val
      · rw [h2] at h
        simp only [Except.error.injEq] at h
        exact Or.inl h.symm
      · rw [h2] at h
        simp at h

theorem splitOnce_single_none_iff (p : Char) (s : List Char) :
    splitOnce [p] s = none ↔ p ∉ s := by
  induction s with
  | nil => simp [splitOnce, stripLead]
  | cons c cs ih =>
    rw [splitOnce]
    by_cases h : p = c
    · rw [show stripLead [p] (c :: cs) = some cs from by simp [stripLead, h]]
      simp [h]
    · rw [show stripLead [p] (c :: cs) = none from by simp [stripLead, h]]
      rcases hsub : splitOnce [p] cs with _ | pr
      · have hnc : p ∉ cs := ih.mp hsub
        simp [h, hnc]
      · obtain ⟨pre, post⟩ := pr
        have hmem : p ∈ cs := by
          by_contra hnc
          rw [← ih] at hnc
          rw [hsub] at hnc
          simp at hnc
        simp [hmem]

theorem splitOnce_single_some (p : Char) (s : List Char) :
    ∀ pre post, splitOnce [p] s = some (pre, post) →
      s = pre ++ p :: post ∧ p ∉ pre := by
  induction s with
  | nil => simp [splitOnce, stripLead]
  | cons c cs ih =>
    intro pre post
    rw [splitOnce]
    by_cases h : p = c
    · rw [show stripLead [p] (c :: cs) = some cs from by simp [stripLead, h]]
      intro he
      simp only [Option.some.injEq, Prod.mk.injEq] at he
      obtain ⟨h1, h2⟩ := he
      subst h1; subst h2
      simp [h]
    · rw [show stripLead [p] (c :: cs) = none from by simp [stripLead, h]]
      rcases hsub : splitOnce [p] cs with _ | pr
      · simp
      · obtain ⟨pre2, post2⟩ := pr
        simp only [Option.some.injEq, Prod.mk.injEq]
        intro he
        obtain ⟨h1, h2⟩ := he
        subst h1; subst h2
        obtain ⟨hcs, hnp⟩ := ih pre2 post2 (by rw [hsub])
        constructor
        · rw [List.cons_append, ← hcs]
        · simp only [List.mem_cons]
          push_neg
          exact ⟨fun hpc => h hpc, hnp⟩


theorem query_notLoaded_of_ne (exec : Exec) (name v : List Char)
    (hl : extract_property exec name ("LoadState".toList) = .ok v)
    (hv : v ≠ "loaded".toList) :
    query_registration exec name = some (.error .notLoaded) := by
  rw [query_registration, hl]
  simp only []
  rw [if_pos hv]

theorem query_eq_descStage (exec : Exec) (name desc : List Char)
    (hl : extract_property exec name ("LoadState".toList) = .ok ("loaded".toList))
    (hd : extract_property exec name ("Description".toList) = .ok desc) :
    query_registration exec name = queryDescStage exec name desc := by
  rw [query_registration, hl]
  simp only []
  rw [if_neg (by simp), hd]
  simp only []
  rw [queryDescStage]
  rcases hs : splitOnce [' '] desc with _ | pr
  · rfl
  · obtain ⟨pre, tok⟩ := pr
    simp only []
    rcases hdec : CommandConfig.decodeRoot tok with _ | cmd
    · rfl
    · simp only []
      conv_rhs => rw [queryCalendarStage]
      rcases hcal : extract_property exec name ("TimersCalendar".toList) with e | cal
      · rfl
      · simp only []
        rcases h1 : splitOnce ("OnCalendar=".toList) cal with _ | p1
        · rfl
        · obtain ⟨a1, r1⟩ := p1
          simp only []
          rcases h2 : splitOnce (" ;".toList) r1 with _ | p2
          · rfl
          · obtain ⟨dtStr, r2⟩ := p2
            simp only []
            rcases h3 : parseDateTime dtStr with _ | t
            · rfl
            · rfl

theorem queryDescStage_ne_notLoaded (exec : Exec) (name desc : List Char) :
    queryDescStage exec name desc ≠ some (.error .notLoaded) := by
  rw [queryDescStage]
  rcases hs : splitOnce [' '] desc with _ | pr
  · simp
  · obtain ⟨pre, tok⟩ := pr
    simp only []
    rcases hdec : CommandConfig.decodeRoot tok with _ | cmd
    · simp
    · simp only []
      rw [queryCalendarStage]
      rcases hcal : extract_property exec name ("TimersCalendar".toList) with e | cal
      · rcases extract_property_error_shape exec name _ e hcal with h | ⟨ce, h⟩ <;>
          simp [h]
      · simp only []
        rcases h1 : splitOnce ("OnCalendar=".toList) cal with _ | p1
        · simp
        · obtain ⟨a1, r1⟩ := p1
          simp only []
          rcases h2 : splitOnce (" ;".toList) r1 with _ | p2
          · simp
          · obtain ⟨dtStr, r2⟩ := p2
            simp only []
            rcases h3 : parseDateTime dtStr with _ | t <;> simp

theorem query_eq_calendarStage (exec : Exec) (name desc pre tok : List Char)
    (cmd : CommandConfig)
    (hl : extract_property exec name ("LoadState".toList) = .ok ("loaded".toList))
    (hd : extract_property exec name ("Description".toList) = .ok desc)
    (hs : splitOnce [' '] desc = some (pre, tok))
    (hdec : CommandConfig.decodeRoot tok = some cmd) :
    query_registration exec name = some (queryCalendarStage exec name cmd) := by
  rw [query_eq_descStage exec name desc hl hd, queryDescStage, hs]
  simp only []
  rw [hdec]

theorem query_ne_notLoaded_of_loaded (exec : Exec) (name : List Char)
    (hl : extract_property exec name ("LoadState".toList) = .ok ("loaded".toList)) :
    query_registration exec name ≠ some (.error .notLoaded) := by
  rcases hd : extract_property exec name ("Description".toList) with e | desc
  · rw [query_registration, hl]
    simp only []
    rw [if_neg (by simp), hd]
    rcases extract_property_error_shape _ _ _ _ hd with h | ⟨ce, h⟩ <;> simp [h]
  · rw [query_eq_descStage exec name desc hl hd]
    exact queryDescStage_ne_notLoaded exec name desc

/-! # Claim theorems -/

set_option maxRecDepth 1000000

/-- C1: for every CommandConfig whose byte-string fields hold bytes, decoding
the encoding returns the original value field for field, preserving the order
of the environment-edit and argument sequences, duplicate keys, empty
argument lists, an absent working directory and mixed set/unset entries. -/
theorem claim_C1_roundtrip (c : CommandConfig) (h : c.wfb = true) :
    CommandConfig.decode (CommandConfig.encode c) = .ok c := decode_encode c h

/-- C1 witness: the round trip evaluated at a configuration with a duplicated
environment key holding one set and one unset entry, an empty argument list
and an absent working directory. -/
theorem claim_C1_roundtrip_witness :
    sampleConfig.wfb = true ∧
    sampleConfig.dir = none ∧
    sampleConfig.args = [] ∧
    sampleConfig.env_vars = [([75], some [86]), ([75], none)] ∧
    CommandConfig.decode (CommandConfig.encode sampleConfig) = .ok sampleConfig :=
  ⟨by decide, rfl, rfl, rfl, claim_C1_roundtrip sampleConfig (by decide)⟩

/-- C2 counterexample: in a world whose executor answers every invocation
with success and reports `LoadState=loaded` for every show query (the unit
with this name is already loaded), register still returns success: it issues
no load-state query and has no Duplicate error, contradicting the claim that
it fails with Duplicate before attempting creation. -/
theorem claim_C2_counterexample :
    extract_property execLoaded sampleName ("LoadState".toList) = .ok ("loaded".toList) ∧
    register execLoaded sampleTime sampleName sampleConfig = .ok () :=
  ⟨rfl, rfl⟩

/-- C2 amended: register consults the executor exactly once, at the single
systemd-run creation invocation (its result depends only on that outcome, so
no load-state query is performed), and classifies that outcome as
`run_command` does: success yields ok, a failing exit status yields
`CommandFailed` with the captured output (the error a second registration of
a loaded name produces), and a spawn failure yields `RunCommand`. -/
theorem claim_C2_amended :
    (∀ (exec exec2 : Exec) (t : DateTime) (name : List Char) (c : CommandConfig),
      exec (registerCall t name c) = exec2 (registerCall t name c) →
      register exec t name c = register exec2 t name c) ∧
    (∀ (exec : Exec) (t : DateTime) (name : List Char) (c : CommandConfig) (out : Output),
      exec (registerCall t name c) = some out →
      (out.success = true → register exec t name c = .ok ()) ∧
      (out.success = false → register exec t name c = .error (.commandFailed out))) ∧
    (∀ (exec : Exec) (t : DateTime) (name : List Char) (c : CommandConfig),
      exec (registerCall t name c) = none →
      register exec t name c = .error .runCommand) := by
  refine ⟨?_, ?_, ?_⟩
  · intro exec exec2 t name c h
    rw [register, register, h]
  · intro exec t name c out h
    constructor
    · intro hs
      rw [register, h, run_command, if_pos hs]
    · intro hf
      rw [register, h, run_command, if_neg (by simp [hf])]
  · intro exec t name c h
    rw [register, h, run_command]

/-- C2 amended witness: a failing creation call surfaces as CommandFailed. -/
theorem claim_C2_amended_witness :
    register (fun _ => some failOutput) sampleTime sampleName sampleConfig =
      .error (.commandFailed failOutput) :=
  (claim_C2_amended.2.1 (fun _ => some failOutput) sampleTime sampleName sampleConfig
    failOutput rfl).2 rfl

/-- C3 counterexample: the crate-root `CommandConfig::decode` (src/lib.rs
lines 165-168), the one `query_registration` uses on external input, unwraps
the hex-decoding error on the input `zz` and aborts; `none` models that
panic, contradicting the claim that decode returns a typed error rather than
panicking for every input string. -/
theorem claim_C3_counterexample : CommandConfig.decodeRoot ("zz".toList) = none := rfl

/-- C3 amended: the codec-module decode (src/command.rs lines 70-76) returns
a typed error for every input - HexDecode if the input is not valid
hexadecimal, Utf8 if the decoded bytes are not valid UTF-8, Deserialization
if the text does not parse as a CommandConfig - and never aborts; the
duplicated crate-root decode aborts exactly where the codec-module decode
would return one of those typed errors. -/
theorem claim_C3_amended : ∀ s : List Char,
    (hexDecode s = none → CommandConfig.decode s = .error .hexDecode) ∧
    (∀ bs, hexDecode s = some bs → utf8Decode bs = none →
      CommandConfig.decode s = .error .utf8) ∧
    (∀ bs t, hexDecode s = some bs → utf8Decode bs = some t → parseConfig t = none →
      CommandConfig.decode s = .error .deserialization) ∧
    (∀ bs t c, hexDecode s = some bs → utf8Decode bs = some t → parseConfig t = some c →
      CommandConfig.decode s = .ok c) ∧
    CommandConfig.decodeRoot s = (CommandConfig.decode s).toOption := by
  intro s
  refine ⟨?_, ?_, ?_, ?_, decodeRoot_eq_toOption s⟩
  · intro h
    rw [CommandConfig.decode, h]
  · intro bs h1 h2
    rw [CommandConfig.decode, h1]
    simp only []
    rw [h2]
  · intro bs t h1 h2 h3
    rw [CommandConfig.decode, h1]
    simp only []
    rw [h2]
    simp only []
    rw [h3]
  · intro bs t c h1 h2 h3
    rw [CommandConfig.decode, h1]
    simp only []
    rw [h2]
    simp only []
    rw [h3]

/-- C3 amended witness: each failure stage evaluated at a concrete input -
invalid hex, valid hex whose bytes are not UTF-8, valid UTF-8 that is not a
serialized CommandConfig - plus the successful stage on a valid token. -/
theorem claim_C3_amended_witness :
    CommandConfig.decode ("zz".toList) = .error .hexDecode ∧
    CommandConfig.decode ("ff".toList) = .error .utf8 ∧
    CommandConfig.decode ("00".toList) = .error .deserialization ∧
    CommandConfig.decode (CommandConfig.encode sampleConfig) = .ok sampleConfig :=
  ⟨(claim_C3_amended ("zz".toList)).1 rfl,
   (claim_C3_amended ("ff".toList)).2.1 [255] rfl rfl,
   (claim_C3_amended ("00".toList)).2.2.1 [0] ['\x00'] rfl rfl rfl,
   (claim_C3_amended (CommandConfig.encode sampleConfig)).2.2.2.1
     (utf8Encode (jsonOfConfig sampleConfig)) (jsonOfConfig sampleConfig) sampleConfig
     rfl rfl rfl⟩

/-- C4: every character of an encoded token belongs to the lowercase
hexadecimal alphabet and is therefore not a whitespace character. -/
theorem claim_C4_token_alphabet : ∀ (c : CommandConfig) (ch : Char),
    ch ∈ CommandConfig.encode c → ch ∈ hexAlphabet ∧ rustCharIsWhitespace ch = false := by
  intro c ch hch
  have h1 := encode_subset_hexAlphabet c ch hch
  exact ⟨h1, hexAlphabet_not_ws ch h1⟩

/-- C4 witness: the first character of the sample token. -/
theorem claim_C4_token_alphabet_witness :
    '7' ∈ CommandConfig.encode sampleConfig ∧
    '7' ∈ hexAlphabet ∧ rustCharIsWhitespace '7' = false :=
  ⟨by decide, claim_C4_token_alphabet sampleConfig '7' (by decide)⟩

/-- C5: TimerName::new fails with NotAscii when some character is outside
the ASCII range, fails with ContainsWhitespace when the input is ASCII and
contains whitespace, succeeds otherwise with no further constraint, and in
particular accepts abc123 and the empty string, rejects a name with a space
with ContainsWhitespace, and rejects a non-ASCII name with NotAscii. -/
theorem claim_C5_timer_name :
    (∀ name : List Char,
      (name.all charIsAscii = false → TimerName.new name = .error .notAscii) ∧
      (name.all charIsAscii = true → name.any rustCharIsWhitespace = true →
        TimerName.new name = .error .containsWhitespace) ∧
      (name.all charIsAscii = true → name.any rustCharIsWhitespace = false →
        TimerName.new name = .ok name)) ∧
    TimerName.new ("abc123".toList) = .ok ("abc123".toList) ∧
    TimerName.new [] = .ok [] ∧
    TimerName.new ("has space".toList) = .error .containsWhitespace ∧
    TimerName.new ("héllo".toList) = .error .notAscii := by
  refine ⟨?_, rfl, rfl, rfl, rfl⟩
  intro name
  refine ⟨?_, ?_, ?_⟩
  · intro h
    rw [TimerName.new, if_pos (by simp [h])]
  · intro h hw
    rw [TimerName.new, if_neg (by simp [h]), if_pos (by simp [hw])]
  · intro h hw
    rw [TimerName.new, if_neg (by simp [h]), if_neg (by simp [hw])]

/-- C5 witness: the whitespace rejection branch applied at a concrete name. -/
theorem claim_C5_timer_name_witness :
    ("has space".toList.all charIsAscii = true) ∧
    ("has space".toList.any rustCharIsWhitespace = true) ∧
    TimerName.new ("has space".toList) = .error .containsWhitespace :=
  ⟨by decide, by decide,
   (claim_C5_timer_name.1 ("has space".toList)).2.1 (by decide) (by decide)⟩

/-- C6: whenever the extracted load-state value is anything other than the
exact string loaded, query_registration fails with NotLoaded, and when it is
loaded the result is never NotLoaded (the query proceeds to the later
stages). -/
theorem claim_C6_not_loaded : ∀ (exec : Exec) (name v : List Char),
    extract_property exec name ("LoadState".toList) = .ok v →
    (v ≠ "loaded".toList → query_registration exec name = some (.error .notLoaded)) ∧
    (v = "loaded".toList → query_registration exec name ≠ some (.error .notLoaded)) := by
  intro exec name v hl
  constructor
  · intro hv
    exact query_notLoaded_of_ne exec name v hl hv
  · intro hv
    subst hv
    exact query_ne_notLoaded_of_loaded exec name hl

/-- C6 witness: a world whose unit reports LoadState inactive. -/
theorem claim_C6_not_loaded_witness :
    extract_property execInactive sampleName ("LoadState".toList) = .ok ("inactive".toList) ∧
    query_registration execInactive sampleName = some (.error .notLoaded) :=
  ⟨rfl, (claim_C6_not_loaded execInactive sampleName ("inactive".toList) rfl).1 (by decide)⟩

/-- C7: once the query has reached the calendar stage (load-state loaded,
description extracted and split, token decoded), the timestamp is obtained by
locating the literal marker OnCalendar= and the literal marker space
semicolon, slicing between them and parsing the slice with the fixed
year-month-day hour:minute:second format; a missing marker or an unparsable
slice yields ParseError, and a parsable slice yields the decoded invocation
paired with the parsed timestamp. -/
theorem claim_C7_calendar : ∀ (exec : Exec) (name desc pre tok : List Char)
    (cmd : CommandConfig),
    extract_property exec name ("LoadState".toList) = .ok ("loaded".toList) →
    extract_property exec name ("Description".toList) = .ok desc →
    splitOnce [' '] desc = some (pre, tok) →
    CommandConfig.decodeRoot tok = some cmd →
    ∀ cal, extract_property exec name ("TimersCalendar".toList) = .ok cal →
    (splitOnce ("OnCalendar=".toList) cal = none →
      query_registration exec name = some (.error .parseError)) ∧
    (∀ a1 r1, splitOnce ("OnCalendar=".toList) cal = some (a1, r1) →
      (splitOnce (" ;".toList) r1 = none →
        query_registration exec name = some (.error .parseError)) ∧
      (∀ dt r2, splitOnce (" ;".toList) r1 = some (dt, r2) →
        (parseDateTime dt = none →
          query_registration exec name = some (.error .parseError)) ∧
        (∀ t, parseDateTime dt = some t →
          query_registration exec name = some (.ok (cmd, t))))) := by
  intro exec name desc pre tok cmd hl hd hs hdec cal hcal
  have hq := query_eq_calendarStage exec name desc pre tok cmd hl hd hs hdec
  constructor
  · intro h1
    rw [hq, queryCalendarStage, hcal]
    simp only []
    rw [h1]
  · intro a1 r1 h1
    constructor
    · intro h2
      rw [hq, queryCalendarStage, hcal]
      simp only []
      rw [h1]
      simp only []
      rw [h2]
    · intro dt r2 h2
      constructor
      · intro h3
        rw [hq, queryCalendarStage, hcal]
        simp only []
        rw [h1]
        simp only []
        rw [h2]
        simp only []
        rw [h3]
      · intro t h3
        rw [hq, queryCalendarStage, hcal]
        simp only []
        rw [h1]
        simp only []
        rw [h2]
        simp only []
        rw [h3]

/-- C7 witness: a fully registered world in which all stages succeed and the
query returns the sample invocation and its timestamp. -/
theorem claim_C7_calendar_witness :
    query_registration execRegistered sampleName = some (.ok (sampleConfig, sampleTime)) :=
  (((claim_C7_calendar execRegistered sampleName
      ("systemd-wake ".toList ++ CommandConfig.encode sampleConfig)
      ("systemd-wake".toList) (CommandConfig.encode sampleConfig) sampleConfig
      rfl rfl rfl (decodeRoot_encode sampleConfig (by decide))
      ("\x7b OnCalendar=2024-01-02 03:04:05 ;next_elapse\x7d".toList) rfl).2
    ("\x7b ".toList) ("2024-01-02 03:04:05 ;next_elapse\x7d".toList) rfl).2
    ("2024-01-02 03:04:05".toList) ("next_elapse\x7d".toList) rfl).2
    sampleTime rfl

/-- C8 counterexample: a loaded unit whose description separates the prefix
from the token with a tab: the description contains whitespace and its part
after the tab is a decodable token, yet query_registration fails with
ParseError, because the code splits on a space character only - contradicting
the claim that the split is on the first whitespace run and that ParseError
arises only when the value contains no whitespace at all. -/
theorem claim_C8_counterexample :
    extract_property execTabDesc sampleName ("Description".toList) =
      .ok ("unit\x09".toList ++ CommandConfig.encode sampleConfig) ∧
    ("unit\x09".toList ++ CommandConfig.encode sampleConfig).any rustCharIsWhitespace = true ∧
    CommandConfig.decodeRoot (CommandConfig.encode sampleConfig) = some sampleConfig ∧
    query_registration execTabDesc sampleName = some (.error .parseError) :=
  ⟨rfl, by decide, decodeRoot_encode sampleConfig (by decide), rfl⟩

/-- C8 amended: query_registration splits the description value on the first
space character (not on arbitrary whitespace): with load-state loaded and the
description extracted, it fails with ParseError when the value contains no
space; otherwise the value splits as prefix, space, token with no space in
the prefix, and the token (the part after the first space) is decoded - a
malformed token aborts (the unwrapping decode), a well-formed one advances
the query to the calendar stage. -/
theorem claim_C8_amended : ∀ (exec : Exec) (name desc : List Char),
    extract_property exec name ("LoadState".toList) = .ok ("loaded".toList) →
    extract_property exec name ("Description".toList) = .ok desc →
    ((' ' ∉ desc → query_registration exec name = some (.error .parseError)) ∧
     (∀ pre tok, splitOnce [' '] desc = some (pre, tok) →
       desc = pre ++ ' ' :: tok ∧ ' ' ∉ pre ∧
       (CommandConfig.decodeRoot tok = none → query_registration exec name = none) ∧
       (∀ cmd, CommandConfig.decodeRoot tok = some cmd →
         query_registration exec name = some (queryCalendarStage exec name cmd)))) := by
  intro exec name desc hl hd
  constructor
  · intro hno
    have hsplit : splitOnce [' '] desc = none := (splitOnce_single_none_iff ' ' desc).mpr hno
    rw [query_eq_descStage exec name desc hl hd, queryDescStage, hsplit]
  · intro pre tok hsplit
    obtain ⟨hdesc, hpre⟩ := splitOnce_single_some ' ' desc pre tok hsplit
    refine ⟨hdesc, hpre, ?_, ?_⟩
    · intro hdec
      rw [query_eq_descStage exec name desc hl hd, queryDescStage, hsplit]
      simp only []
      rw [hdec]
    · intro cmd hdec
      exact query_eq_calendarStage exec name desc pre tok cmd hl hd hsplit hdec

/-- C8 amended witness: the tab-separated description contains no space, so
the query fails with ParseError. -/
theorem claim_C8_amended_witness :
    (' ' ∉ ("unit\x09".toList ++ CommandConfig.encode sampleConfig)) ∧
    query_registration execTabDesc sampleName = some (.error .parseError) :=
  ⟨by decide,
   (claim_C8_amended execTabDesc sampleName
     ("unit\x09".toList ++ CommandConfig.encode sampleConfig) rfl rfl).1 (by decide)⟩

/-- C9: invoked with a single positional argument that decodes as a token,
the program runs the decoded invocation synchronously and completes normally
even when the inner invocation exits with a failing status - the failure is
captured in the discarded run_command result, not surfaced by main. -/
theorem claim_C9_self_invocation : ∀ (self tok : List Char)
    (exec : CommandConfig → Option Output) (c : CommandConfig),
    CommandConfig.decodeRoot tok = some c →
    mainModel [self, tok] exec = .ran c (run_command (exec c)) ∧
    (mainModel [self, tok] exec).completesNormally = true ∧
    (∀ out, exec c = some out → out.success = false →
      mainModel [self, tok] exec = .ran c (.error (.commandFailed out))) := by
  intro self tok exec c hdec
  have hmain : mainModel [self, tok] exec = .ran c (run_command (exec c)) := by
    rw [mainModel, hdec]
  refine ⟨hmain, by rw [hmain]; rfl, ?_⟩
  intro out hexec hfail
  rw [hmain, hexec, run_command, if_neg (by simp [hfail])]

/-- C9 witness: the sample token run in a world where the inner invocation
fails; main still completes normally with the failure captured and
discarded. -/
theorem claim_C9_self_invocation_witness :
    CommandConfig.decodeRoot (CommandConfig.encode sampleConfig) = some sampleConfig ∧
    mainModel ["systemd-wake".toList, CommandConfig.encode sampleConfig]
      (fun _ => some failOutput) =
      .ran sampleConfig (.error (.commandFailed failOutput)) ∧
    (mainModel ["systemd-wake".toList, CommandConfig.encode sampleConfig]
      (fun _ => some failOutput)).completesNormally = true :=
  ⟨decodeRoot_encode sampleConfig (by decide),
   (claim_C9_self_invocation ("systemd-wake".toList) (CommandConfig.encode sampleConfig)
     (fun _ => some failOutput) sampleConfig
     (decodeRoot_encode sampleConfig (by decide))).2.2 failOutput rfl rfl,
   (claim_C9_self_invocation ("systemd-wake".toList) (CommandConfig.encode sampleConfig)
     (fun _ => some failOutput) sampleConfig
     (decodeRoot_encode sampleConfig (by decide))).2.1⟩

/-- C10: given a successful show invocation, property extraction returns the
value with all trailing whitespace removed - the three stdout shapes value,
value newline, and value spaces newline all yield the same extracted value -
and it fails with ParseError exactly when stdout is not valid UTF-8 or does
not begin with the literal property= prefix. -/
theorem claim_C10_extract : ∀ (exec : Exec) (name property v : List Char) (out : Output),
    exec (showCall name property) = some out → out.success = true →
    ((out.stdout = utf8Encode (property ++ '=' :: v) ∨
      out.stdout = utf8Encode (property ++ '=' :: (v ++ ['\x0a'])) ∨
      out.stdout = utf8Encode (property ++ '=' :: (v ++ (' ' :: ' ' :: ' ' :: ['\x0a'])))) →
      extract_property exec name property = .ok (trimEnd v)) ∧
    (extract_property exec name property = .error .parseError ↔
      utf8Decode out.stdout = none ∨
      ∃ s, utf8Decode out.stdout = some s ∧ stripLead (property ++ ['=']) s = none) := by
  intro exec name property v out hexec hsucc
  constructor
  · intro hstdout
    rcases hstdout with h | h | h
    · exact extract_property_ok exec name property out hexec hsucc v h
    · rw [extract_property_ok exec name property out hexec hsucc (v ++ ['\x0a']) h,
        trimEnd_append_ws v ['\x0a'] (by decide)]
    · rw [extract_property_ok exec name property out hexec hsucc
        (v ++ (' ' :: ' ' :: ' ' :: ['\x0a'])) h,
        trimEnd_append_ws v (' ' :: ' ' :: ' ' :: ['\x0a']) (by decide)]
  · exact extract_property_parseError_iff exec name property out hexec hsucc

/-- C10 witness: extraction of the inactive load-state report, whose stdout
carries a trailing newline that is removed from the value. -/
theorem claim_C10_extract_witness :
    extract_property execInactive sampleName ("LoadState".toList) =
      .ok (trimEnd ("inactive".toList)) :=
  (claim_C10_extract execInactive sampleName ("LoadState".toList) ("inactive".toList)
    ⟨true, utf8Encode ("LoadState=inactive\x0a".toList), []⟩ rfl rfl).1
    (Or.inr (Or.inl (by rfl)))
